import Mathlib

/-!
Verification development for the repository's data-transformation code.

Each Python function relevant to the checked claims is shallowly embedded
as an executable Lean definition.  Pandas Series / DataFrames are modelled
as association lists (index-value pairs, resp. column-name / column-value
pairs); machine floats that only ever hold scores are modelled as `Rat`;
Python exceptions are modelled with `Except` / sum types.
-/

namespace TariffUtils

/-- One character of Python's `str.replace(r"\D+", "", regex=True)`:
keep exactly the decimal-digit characters of the string. -/
def stripNonDigits (s : String) : String :=
  ⟨s.data.filter Char.isDigit⟩

/-- Python's `str.ljust(width, fillchar)`: pad on the right up to `width`;
strings already at least `width` long are returned unchanged. -/
def pyLjust (width : Nat) (fill : Char) (s : String) : String :=
  if s.length ≥ width then s else s ++ ⟨List.replicate (width - s.length) fill⟩

/-- A pandas DataFrame, modelled by its columns: each entry is a column
name paired with the column's cell values (all cells are strings, as the
ingest reads everything with `dtype=str`). -/
def Df : Type := List (String × List String)

/-- Column lookup, `df[col]`: the first column with the given name. -/
def lookupCol (df : Df) (name : String) : Option (List String) :=
  (df.find? (fun c => c.1 = name)).map (fun c => c.2)

/-- `col in df.columns`. -/
def hasCol (df : Df) (name : String) : Bool :=
  df.any (fun c => c.1 = name)

/-- The per-cell transformation of `add_standardised_comm_code`:
`.str.replace(r"\D+", "", regex=True).str.ljust(width=10, fillchar="0")`. -/
def standardiseCell (v : String) : String :=
  pyLjust 10 (Char.ofNat 48) (stripNonDigits v)

/-- Embedding of `utils.add_standardised_comm_code`: if `commCodeCol` is a
column of `df`, assign a new column `newCol` whose cells are the stripped,
zero-padded comm codes; otherwise only a warning is logged and `df` is
returned unchanged.  (Pandas column assignment overwrites an existing
column of the same name, hence the filter.) -/
def add_standardised_comm_code (df : Df) (commCodeCol newCol : String) : Df :=
  match lookupCol df commCodeCol with
  | some vals =>
      (df.filter (fun c => c.1 ≠ newCol)) ++ [(newCol, vals.map standardiseCell)]
  | none => df

/-- `COL_HDRS["COMM_CODE"]` from `config.py`. -/
def commCodeHdr : String := "commodity_code"

/-- `COL_HDRS["STANDARD_COMM_CODE"]` from `config.py`. -/
def standardCommCodeHdr : String := "standardised_commodity_code"

/-- A comm-code cell holding twelve digits: stripping keeps all twelve. -/
def twelveDigitCode : String := "123456789012"

/-- A one-row input frame whose comm-code cell has twelve digits. -/
def dfTwelve : Df := [(commCodeHdr, [twelveDigitCode])]

end TariffUtils

namespace TariffUtils

theorem length_standardiseCell (v : String) :
    (standardiseCell v).length = max 10 (stripNonDigits v).length := by
  unfold standardiseCell pyLjust
  by_cases h : (stripNonDigits v).length ≥ 10
  · rw [if_pos h]
    omega
  · rw [if_neg h, String.length_append]
    have : (String.mk (List.replicate (10 - (stripNonDigits v).length)
        (Char.ofNat 48))).length = 10 - (stripNonDigits v).length := by
      show (List.replicate (10 - (stripNonDigits v).length)
        (Char.ofNat 48)).length = 10 - (stripNonDigits v).length
      exact List.length_replicate _ _
    rw [this]
    omega

end TariffUtils

/-- C3 counterexample: on a frame whose comm-code cell holds twelve digits,
the appended standardised value has twelve characters, not exactly ten —
`ljust` pads but never truncates. -/
theorem c3_counterexample :
    TariffUtils.lookupCol
        (TariffUtils.add_standardised_comm_code TariffUtils.dfTwelve
          TariffUtils.commCodeHdr TariffUtils.standardCommCodeHdr)
        TariffUtils.standardCommCodeHdr
      = some [TariffUtils.twelveDigitCode] ∧
    TariffUtils.twelveDigitCode.length ≠ 10 := by
  constructor
  · rfl
  · decide

/-- C3 (amended): for every input frame containing the commodity-code
column, `add_standardised_comm_code` appends a standardised column whose
every value is the source value with non-digits stripped and zeros padded
on the right to width 10; the value has exactly 10 characters whenever the
stripped source has at most 10 digits, and otherwise keeps all its digits
(length `max 10 digits`). -/
theorem c3_add_standardised_comm_code (df : TariffUtils.Df)
    (commCol newCol : String) (vals : List String)
    (h : TariffUtils.lookupCol df commCol = some vals) :
    TariffUtils.lookupCol
        (TariffUtils.add_standardised_comm_code df commCol newCol) newCol
      = some (vals.map TariffUtils.standardiseCell) ∧
    ∀ v ∈ vals,
      (TariffUtils.standardiseCell v).length
          = max 10 (TariffUtils.stripNonDigits v).length ∧
      ((TariffUtils.stripNonDigits v).length ≤ 10 →
        (TariffUtils.standardiseCell v).length = 10) := by
  constructor
  · unfold TariffUtils.add_standardised_comm_code
    rw [h]
    unfold TariffUtils.lookupCol
    rw [List.find?_append]
    have hnone : (df.filter (fun c => c.1 ≠ newCol)).find?
        (fun c => c.1 = newCol) = none := by
      rw [List.find?_eq_none]
      intro x hx
      have := List.of_mem_filter hx
      simpa using this
    rw [hnone]
    simp [List.find?]
  · intro v _
    refine ⟨TariffUtils.length_standardiseCell v, fun hle => ?_⟩
    rw [TariffUtils.length_standardiseCell v]
    omega

/-- Witness for C3's theorem at a concrete frame. -/
theorem c3_witness :
    TariffUtils.lookupCol
        (TariffUtils.add_standardised_comm_code
          [(TariffUtils.commCodeHdr, ["0101.01"])]
          TariffUtils.commCodeHdr TariffUtils.standardCommCodeHdr)
        TariffUtils.standardCommCodeHdr
      = some (["0101.01"].map TariffUtils.standardiseCell) :=
  (c3_add_standardised_comm_code
    [(TariffUtils.commCodeHdr, ["0101.01"])]
    TariffUtils.commCodeHdr TariffUtils.standardCommCodeHdr
    ["0101.01"] rfl).1

namespace TextSummariserM

/-- The Python argument passed as `bounds`: `None`, a tuple of ints, or a
value of some other (non-tuple) type. -/
inductive BoundsArg
  | noneArg : BoundsArg
  | tupleArg (items : List Int) : BoundsArg
  | nonTupleArg : BoundsArg
deriving DecidableEq

/-- The exceptions `set_summary_bounds` can raise. -/
inductive SummErr
  | typeError : SummErr
  | valueError : SummErr
deriving DecidableEq

/-- Python's `int()` applied to a (modelled-as-rational) float:
truncation toward zero. -/
def pyInt (q : Rat) : Int := Int.tdiv q.num (Int.ofNat q.den)

/-- Embedding of `TextSummariser.set_summary_bounds` (with
`self.num_words`, `self.min_percent`, `self.max_percent` passed
explicitly).  The `elif` chain is checked in source order. -/
def set_summary_bounds (numWords : Int) (minPercent maxPercent : Rat)
    (b : BoundsArg) : Except SummErr (Int × Int) :=
  match b with
  | .noneArg =>
      .ok (pyInt ((numWords : Rat) * minPercent),
           pyInt ((numWords : Rat) * maxPercent))
  | .nonTupleArg => .error .typeError
  | .tupleArg items =>
      if items.length ≠ 2 then .error .valueError
      else if items.getD 0 0 ≥ items.getD 1 0 then .error .valueError
      else if items.getD 0 0 > numWords then .error .valueError
      else .ok (items.getD 0 0, items.getD 1 0)

end TextSummariserM

/-- C8: `set_summary_bounds` raises `TypeError` exactly on non-`None`
non-tuple arguments; raises `ValueError` exactly when a tuple argument
fails one of the three checks (length 2, lower < upper — so equal bounds
are rejected — lower ≤ `num_words`); returns a valid tuple unchanged; and
on `None` returns the truncated percent-of-word-count defaults without
raising. -/
theorem c8_set_summary_bounds (numWords : Int) (minP maxP : Rat)
    (b : TextSummariserM.BoundsArg) :
    (TextSummariserM.set_summary_bounds numWords minP maxP b
        = .error .typeError ↔ b = .nonTupleArg) ∧
    (TextSummariserM.set_summary_bounds numWords minP maxP b
        = .error .valueError ↔
      ∃ items, b = .tupleArg items ∧
        (items.length ≠ 2 ∨ items.getD 0 0 ≥ items.getD 1 0 ∨
          items.getD 0 0 > numWords)) ∧
    (∀ items, b = .tupleArg items → items.length = 2 →
      items.getD 0 0 < items.getD 1 0 → items.getD 0 0 ≤ numWords →
      TextSummariserM.set_summary_bounds numWords minP maxP b
        = .ok (items.getD 0 0, items.getD 1 0)) ∧
    (b = .noneArg →
      TextSummariserM.set_summary_bounds numWords minP maxP b
        = .ok (TextSummariserM.pyInt ((numWords : Rat) * minP),
               TextSummariserM.pyInt ((numWords : Rat) * maxP))) := by
  refine ⟨?_, ?_, ?_, ?_⟩
  · cases b with
    | noneArg => simp [TextSummariserM.set_summary_bounds]
    | nonTupleArg => simp [TextSummariserM.set_summary_bounds]
    | tupleArg items =>
        simp only [TextSummariserM.set_summary_bounds]
        constructor
        · intro h
          by_cases h1 : items.length ≠ 2
          · rw [if_pos h1] at h; exact absurd h (by simp)
          · rw [if_neg h1] at h
            by_cases h2 : items.getD 0 0 ≥ items.getD 1 0
            · rw [if_pos h2] at h; exact absurd h (by simp)
            · rw [if_neg h2] at h
              by_cases h3 : items.getD 0 0 > numWords
              · rw [if_pos h3] at h; exact absurd h (by simp)
              · rw [if_neg h3] at h; exact absurd h (by simp)
        · intro h; exact absurd h (by simp)
  · cases b with
    | noneArg =>
        simp [TextSummariserM.set_summary_bounds]
    | nonTupleArg =>
        simp [TextSummariserM.set_summary_bounds]
    | tupleArg items =>
        simp only [TextSummariserM.set_summary_bounds]
        constructor
        · intro h
          refine ⟨items, rfl, ?_⟩
          by_cases h1 : items.length ≠ 2
          · exact Or.inl h1
          · rw [if_neg h1] at h
            by_cases h2 : items.getD 0 0 ≥ items.getD 1 0
            · exact Or.inr (Or.inl h2)
            · rw [if_neg h2] at h
              by_cases h3 : items.getD 0 0 > numWords
              · exact Or.inr (Or.inr h3)
              · rw [if_neg h3] at h; exact absurd h (by simp)
        · rintro ⟨its, heq, hcond⟩
          cases heq
          rcases hcond with h1 | h2 | h3
          · rw [if_pos h1]
          · by_cases h1 : items.length ≠ 2
            · rw [if_pos h1]
            · rw [if_neg h1, if_pos h2]
          · by_cases h1 : items.length ≠ 2
            · rw [if_pos h1]
            · rw [if_neg h1]
              by_cases h2 : items.getD 0 0 ≥ items.getD 1 0
              · rw [if_pos h2]
              · rw [if_neg h2, if_pos h3]
  · intro items heq hlen hlt hle
    cases heq
    simp only [TextSummariserM.set_summary_bounds]
    rw [if_neg (by omega), if_neg (by omega), if_neg (by omega)]
  · intro h
    cases h
    rfl

/-- Witness for C8 at concrete inputs: a valid tuple is returned
unchanged, and `None` yields the truncated defaults. -/
theorem c8_witness :
    TextSummariserM.set_summary_bounds 100 (1/10) (8/10)
        (TextSummariserM.BoundsArg.tupleArg [5, 50])
      = .ok (5, 50) ∧
    TextSummariserM.set_summary_bounds 100 (1/10) (8/10)
        TextSummariserM.BoundsArg.noneArg
      = .ok (TextSummariserM.pyInt ((100 : Rat) * (1/10)),
             TextSummariserM.pyInt ((100 : Rat) * (8/10))) := by
  constructor
  · have := (c8_set_summary_bounds 100 (1/10) (8/10)
      (TextSummariserM.BoundsArg.tupleArg [5, 50])).2.2.1
    have h := this [5, 50] rfl (by decide) (by decide) (by decide)
    simpa using h
  · exact (c8_set_summary_bounds 100 (1/10) (8/10)
      TextSummariserM.BoundsArg.noneArg).2.2.2 rfl

namespace TextProcessing

/-- Embedding of `TextProcessor.remove_stopwords`: Python's `if words:`
treats both `None` and the empty list as falsy, returning `None`; a
non-empty list is filtered by `word not in self.stopwords`. -/
def remove_stopwords (stop : List String) (ws : Option (List String)) :
    Option (List String) :=
  match ws with
  | some words =>
      if words.isEmpty then none
      else some (words.filter (fun w => !stop.contains w))
  | none => none

end TextProcessing

namespace NlpProcessing

/-- A segment of a text cell: a maximal run of word characters, or a gap
of non-word characters.  The regex `\b(?:w1|w2|...)\b` used by
`remove_stop_words_and_set_case` matches exactly the word runs equal to a
configured stop-word, so a cell is modelled pre-segmented at the word
boundaries the regex engine uses. -/
inductive Seg
  | word (w : String) : Seg
  | gap (g : String) : Seg
deriving DecidableEq

/-- Python's `str.lower()`, character by character. -/
def pyLower (s : String) : String := ⟨s.data.map Char.toLower⟩

/-- The `str.replace(stop_str, "", regex=True)` step: each word run equal
to a configured stop-word is replaced by the empty string (the
surrounding non-word characters are untouched). -/
def deleteStops (stop : List String) (t : List Seg) : List Seg :=
  t.map (fun s => match s with
    | .word w => if stop.contains w then Seg.gap "" else Seg.word w
    | .gap g => Seg.gap g)

/-- The trailing `.str.lower()` step applied to the whole cell. -/
def lowerText (t : List Seg) : List Seg :=
  t.map (fun s => match s with
    | .word w => Seg.word (pyLower w)
    | .gap g => Seg.gap (pyLower g))

/-- Embedding of `NlpProcessingBase.remove_stop_words_and_set_case`:
delete the stop-words first, then lower-case the result (in that order —
the stop-word match is case-sensitive). -/
def remove_stop_words_and_set_case (stop : List String) (t : List Seg) :
    List Seg :=
  lowerText (deleteStops stop t)

/-- The words of a cell, in order. -/
def wordsOf (t : List Seg) : List String :=
  t.filterMap (fun s => match s with
    | .word w => some w
    | .gap _ => none)

end NlpProcessing

/-- C4 counterexample: on the empty token list (with an empty configured
stop-word list), `remove_stopwords` returns `None`, not the (empty) input
list with its stop-words removed — Python's falsy test short-circuits. -/
theorem c4_counterexample :
    TextProcessing.remove_stopwords [] (some ([] : List String)) = none ∧
    TextProcessing.remove_stopwords [] (some ([] : List String))
      ≠ some [] := by
  constructor
  · rfl
  · intro h
    exact Option.noConfusion h

/-- C4 (amended): for every *non-empty* token list,
`TextProcessor.remove_stopwords` returns the list with a token removed if
and only if it is in the configured stop-word list (order and
multiplicity of the other tokens preserved; `None` or an empty list
yields `None`); and `NlpProcessingBase.remove_stop_words_and_set_case`
deletes exactly the (case-sensitively) matching configured stop-words and
lower-cases the result, leaving every other word in order. -/
theorem c4_stopword_removal :
    (∀ (stop ws : List String), ws ≠ [] →
      ∃ res, TextProcessing.remove_stopwords stop (some ws) = some res ∧
        res.Sublist ws ∧
        (∀ w ∈ stop, res.count w = 0) ∧
        (∀ w, w ∉ stop → res.count w = ws.count w)) ∧
    (∀ (stop : List String) (t : List NlpProcessing.Seg),
      NlpProcessing.wordsOf
          (NlpProcessing.remove_stop_words_and_set_case stop t)
        = ((NlpProcessing.wordsOf t).filter
            (fun w => !stop.contains w)).map NlpProcessing.pyLower) := by
  constructor
  · intro stop ws hne
    refine ⟨ws.filter (fun w => !stop.contains w), ?_, ?_, ?_, ?_⟩
    · have hempty : ws.isEmpty = false := by
        simpa [List.isEmpty_iff] using hne
      simp [TextProcessing.remove_stopwords, hempty]
    · exact List.filter_sublist ws
    · intro w hw
      rw [List.count_eq_zero]
      intro hmem
      have := List.of_mem_filter hmem
      simp only [Bool.not_eq_true'] at this
      exact absurd hw
        (by simpa [List.contains, List.elem_eq_mem] using this)
    · intro w hw
      apply List.count_filter
      simp [List.contains, List.elem_eq_mem, hw]
  · intro stop t
    induction t with
    | nil => rfl
    | cons s rest ih =>
        cases s with
        | word w =>
            by_cases hw : w ∈ stop
            · simp [NlpProcessing.remove_stop_words_and_set_case,
                NlpProcessing.deleteStops, NlpProcessing.lowerText,
                NlpProcessing.wordsOf, hw] at ih ⊢
              exact ih
            · simp [NlpProcessing.remove_stop_words_and_set_case,
                NlpProcessing.deleteStops, NlpProcessing.lowerText,
                NlpProcessing.wordsOf, hw] at ih ⊢
              exact ih
        | gap g =>
            simp only [NlpProcessing.remove_stop_words_and_set_case,
              NlpProcessing.deleteStops, NlpProcessing.lowerText,
              NlpProcessing.wordsOf, List.map_cons,
              List.filterMap_cons] at ih ⊢
            exact ih

/-- Witness for C4's theorem on a concrete token list and segment list. -/
theorem c4_witness :
    (∃ res,
      TextProcessing.remove_stopwords ["the"] (some ["the", "cat"])
        = some res ∧
      res.Sublist ["the", "cat"] ∧
      (∀ w ∈ ["the"], res.count w = 0) ∧
      (∀ w, w ∉ ["the"] → res.count w = (["the", "cat"]).count w)) ∧
    NlpProcessing.wordsOf
        (NlpProcessing.remove_stop_words_and_set_case ["the"]
          [NlpProcessing.Seg.word "The", NlpProcessing.Seg.gap " ",
           NlpProcessing.Seg.word "the", NlpProcessing.Seg.gap " ",
           NlpProcessing.Seg.word "CAT"])
      = ((NlpProcessing.wordsOf
            [NlpProcessing.Seg.word "The", NlpProcessing.Seg.gap " ",
             NlpProcessing.Seg.word "the", NlpProcessing.Seg.gap " ",
             NlpProcessing.Seg.word "CAT"]).filter
          (fun w => !(["the"]).contains w)).map NlpProcessing.pyLower := by
  constructor
  · exact c4_stopword_removal.1 ["the"] ["the", "cat"] (by decide)
  · exact c4_stopword_removal.2 ["the"] _

namespace ReadErrors

/-- The kinds of failure a file read can raise.  `Document(...)`,
`pd.read_csv(...)`, `open(...)` and `json.load(...)` are external calls;
their outcome is passed to the embedded handlers as an `Except`. -/
inductive ReadExc
  | fileNotFoundError : ReadExc
  | permissionError : ReadExc
  | decodeError : ReadExc
deriving DecidableEq

/-- Embedding of `WordDocProcessor.get_raw_data_from_file` (base.py):
`except Exception` catches every read failure, logs it, and calls
`sys.exit(1)`; modelled as `Sum.inl exitCode`.  A successful read returns
the document. -/
def get_raw_data_from_file {D : Type} (r : Except ReadExc D) :
    Sum Nat D :=
  match r with
  | .error _ => .inl 1
  | .ok d => .inr d

/-- Embedding of `utils.get_csv_data` (tariff_analysis): `except
Exception` catches every read failure, logs it as critical, and calls
`sys.exit(1)`. -/
def get_csv_data {F : Type} (r : Except ReadExc F) :
    Sum Nat F :=
  match r with
  | .error _ => .inl 1
  | .ok df => .inr df

/-- Embedding of `text_processing.load_processed_text` (topic_modelling):
the `try` block covers `open` and `json.load`, but only
`FileNotFoundError` is caught (printing and falling through to the
implicit `None` return); every other failure propagates to the caller. -/
def load_processed_text {J : Type} (r : Except ReadExc J) :
    Except ReadExc (Option J) :=
  match r with
  | .ok j => .ok (some j)
  | .error .fileNotFoundError => .ok none
  | .error e => .error e

end ReadErrors

/-- C6 counterexample: a read that fails with a `PermissionError`
propagates out of `load_processed_text` uncaught — the function's
`except` clause names only `FileNotFoundError`, so not every file-read
failure is handled locally. -/
theorem c6_counterexample :
    ReadErrors.load_processed_text (J := Unit)
        (Except.error ReadErrors.ReadExc.permissionError)
      = Except.error ReadErrors.ReadExc.permissionError ∧
    ReadErrors.load_processed_text (J := Unit)
        (Except.error ReadErrors.ReadExc.permissionError)
      ≠ Except.ok none := by
  exact ⟨rfl, by intro h; exact Except.noConfusion h⟩

/-- C6 (amended): every failed Word-document read in
`get_raw_data_from_file` and every failed CSV read in `get_csv_data` is
caught, logged and turned into a process exit with code 1;
`load_processed_text` catches only `FileNotFoundError` (returning the
default `None`), while any other read failure — e.g. a permission or
JSON-decode error — propagates to the caller. -/
theorem c6_read_error_handling (D F J : Type) :
    (∀ e, ReadErrors.get_raw_data_from_file (D := D) (Except.error e)
        = Sum.inl 1) ∧
    (∀ e, ReadErrors.get_csv_data (F := F) (Except.error e)
        = Sum.inl 1) ∧
    ReadErrors.load_processed_text (J := J)
        (Except.error ReadErrors.ReadExc.fileNotFoundError)
      = Except.ok none ∧
    (∀ e, e ≠ ReadErrors.ReadExc.fileNotFoundError →
      ReadErrors.load_processed_text (J := J) (Except.error e)
        = Except.error e) ∧
    (∀ j : J, ReadErrors.load_processed_text (Except.ok j)
        = Except.ok (some j)) := by
  refine ⟨fun e => rfl, fun e => rfl, rfl, fun e he => ?_, fun j => rfl⟩
  cases e with
  | fileNotFoundError => exact absurd rfl he
  | permissionError => rfl
  | decodeError => rfl

/-- Witness for C6's theorem at concrete failures. -/
theorem c6_witness :
    ReadErrors.get_raw_data_from_file (D := Unit)
        (Except.error ReadErrors.ReadExc.decodeError) = Sum.inl 1 ∧
    ReadErrors.load_processed_text (J := Unit)
        (Except.error ReadErrors.ReadExc.decodeError)
      = Except.error ReadErrors.ReadExc.decodeError := by
  constructor
  · exact (c6_read_error_handling Unit Unit Unit).1
      ReadErrors.ReadExc.decodeError
  · exact (c6_read_error_handling Unit Unit Unit).2.2.2.1
      ReadErrors.ReadExc.decodeError (by intro h; exact ReadErrors.ReadExc.noConfusion h)

namespace ModelTrainM

/-- The outcome of `train_single_model`: the best estimator found (by
name; `none` when the grid-search fit raised) and its hold-out test
score. -/
structure TrainResult where
  model : Option String
  score : Rat
deriving DecidableEq

/-- One entry of the configured `model_settings` list, abstracted to what
the selection logic observes: the model's name and the outcome of the
external `grid_search.fit` + hold-out scoring (`none` when `fit` raised
an exception). -/
structure ModelSetting where
  name : String
  fitScore : Option Rat
deriving DecidableEq

/-- Embedding of `ModelTrain.train_single_model`: a raised fit is caught
and `{"model": None, "score": -1.0}` returned; otherwise the best
estimator is paired with its hold-out test score. -/
def train_single_model (ms : ModelSetting) : TrainResult :=
  match ms.fitScore with
  | none => ⟨none, -1⟩
  | some sc => ⟨some ms.name, sc⟩

/-- One iteration of the selection loop in `train_all_models`: replace
`best` only on a strictly greater score. -/
def selStep (b : TrainResult) (ms : ModelSetting) : TrainResult :=
  let m := train_single_model ms
  if m.score > b.score then m else b

/-- Embedding of `ModelTrain.train_all_models`: fold the selection loop
over every configured model in order, starting from
`{"model": None, "score": -1.0}`; if no model ever replaced the initial
value the function logs a warning and (implicitly) returns `None`. -/
def train_all_models (settings : List ModelSetting) : Option TrainResult :=
  let best := settings.foldl selStep ⟨none, -1⟩
  if best.model.isSome then some best else none

/-- Embedding of `ModelTrain.run_trainer`: train all models, then — when
`save_model` is set — subscript the result with `["model"]` and persist
it.  Subscripting `None` raises `TypeError`.  The returned pair is
(best-model dict, model persisted to the repo, if any). -/
def run_trainer (saveModel : Bool) (settings : List ModelSetting) :
    Except String (Option TrainResult × Option String) :=
  match train_all_models settings with
  | some best => .ok (some best, if saveModel then best.model else none)
  | none =>
      if saveModel then .error ("TypeError") else .ok (none, none)

theorem selStep_foldl_spec (l : List ModelSetting) (b : TrainResult) :
    (∀ ms ∈ l, (train_single_model ms).score ≤ (l.foldl selStep b).score) ∧
    b.score ≤ (l.foldl selStep b).score ∧
    (l.foldl selStep b = b ∨
      ∃ i, ∃ hi : i < l.length,
        l.foldl selStep b = train_single_model (l.get ⟨i, hi⟩) ∧
        b.score < (l.foldl selStep b).score ∧
        ∀ j, ∀ hj : j < i,
          (train_single_model (l.get ⟨j, Nat.lt_trans hj hi⟩)).score
            < (l.foldl selStep b).score) := by
  induction l generalizing b with
  | nil => exact ⟨by simp, le_refl _, Or.inl rfl⟩
  | cons ms rest ih =>
      simp only [List.foldl_cons]
      by_cases himp : (train_single_model ms).score > b.score
      · have hstep : selStep b ms = train_single_model ms := by
          simp [selStep, himp]
        rw [hstep]
        obtain ⟨ihall, ihbase, ihcases⟩ := ih (train_single_model ms)
        refine ⟨?_, le_trans (le_of_lt himp) ihbase, ?_⟩
        · intro m hm
          rcases List.mem_cons.mp hm with hm | hm
          · exact hm ▸ ihbase
          · exact ihall m hm
        · rcases ihcases with heq | ⟨i, hi, heq, hlt, hprev⟩
          · refine Or.inr ⟨0, by simp, ?_, ?_, ?_⟩
            · simpa using heq
            · rw [heq]; exact himp
            · intro j hj; omega
          · refine Or.inr ⟨i + 1, by simpa using Nat.succ_lt_succ hi,
              by simpa using heq, lt_trans himp hlt, ?_⟩
            intro j hj
            cases j with
            | zero => simpa using hlt
            | succ j' =>
                have hj' : j' < i := by omega
                have := hprev j' hj'
                simpa using this
      · have hstep : selStep b ms = b := by
          simp [selStep, himp]
        rw [hstep]
        obtain ⟨ihall, ihbase, ihcases⟩ := ih b
        refine ⟨?_, ihbase, ?_⟩
        · intro m hm
          rcases List.mem_cons.mp hm with hm | hm
          · exact hm ▸ le_trans (le_of_not_lt himp) ihbase
          · exact ihall m hm
        · rcases ihcases with heq | ⟨i, hi, heq, hlt, hprev⟩
          · exact Or.inl heq
          · refine Or.inr ⟨i + 1, by simpa using Nat.succ_lt_succ hi,
              by simpa using heq, hlt, ?_⟩
            intro j hj
            cases j with
            | zero => simpa using lt_of_le_of_lt (le_of_not_lt himp) hlt
            | succ j' =>
                have hj' : j' < i := by omega
                have := hprev j' hj'
                simpa using this

end ModelTrainM

namespace ModelTrainM

/-- A concrete configuration: one failing model and two models tied on
the hold-out score. -/
def cSettings : List ModelSetting :=
  [⟨"m1", none⟩, ⟨"m2", some (1/2)⟩, ⟨"m3", some (1/2)⟩]

theorem allFailed_foldl (l : List ModelSetting)
    (h : ∀ ms ∈ l, ms.fitScore = none) :
    l.foldl selStep ⟨none, -1⟩ = ⟨none, -1⟩ := by
  induction l with
  | nil => rfl
  | cons ms rest ih =>
      have hms : ms.fitScore = none := h ms (List.mem_cons_self ms rest)
      have hstep : selStep ⟨none, -1⟩ ms = ⟨none, -1⟩ := by
        simp [selStep, train_single_model, hms]
      rw [List.foldl_cons, hstep]
      exact ih (fun m hm => h m (List.mem_cons_of_mem ms hm))

end ModelTrainM

/-- C5: `run_trainer` grid-searches every configured model in order; a
failed grid search is assigned score `-1.0`; provided some model fits
with a test score above `-1.0`, the returned dict's score is an upper
bound of — and attained by — the per-model hold-out scores, the winner
is the first model attaining it (replacement needs a strictly greater
score), and with `save_model` set exactly that best model is
persisted. -/
theorem c5_best_model_selection (settings : List ModelTrainM.ModelSetting)
    (h : ∃ ms ∈ settings, ∃ sc, ms.fitScore = some sc ∧ sc > -1) :
    ∃ best,
      ModelTrainM.train_all_models settings = some best ∧
      (∀ ms : ModelTrainM.ModelSetting, ms.fitScore = none →
        ModelTrainM.train_single_model ms = ⟨none, -1⟩) ∧
      (∀ ms ∈ settings,
        (ModelTrainM.train_single_model ms).score ≤ best.score) ∧
      (∃ i, ∃ hi : i < settings.length,
        best = ModelTrainM.train_single_model (settings.get ⟨i, hi⟩) ∧
        ∀ j, ∀ hj : j < i,
          (ModelTrainM.train_single_model
            (settings.get ⟨j, Nat.lt_trans hj hi⟩)).score < best.score) ∧
      ModelTrainM.run_trainer true settings
        = Except.ok (some best, best.model) := by
  obtain ⟨msw, hmem, sc, hfs, hsc⟩ := h
  obtain ⟨ihall, ihbase, ihcases⟩ :=
    ModelTrainM.selStep_foldl_spec settings ⟨none, -1⟩
  have hscle : sc ≤ (settings.foldl ModelTrainM.selStep ⟨none, -1⟩).score := by
    have := ihall msw hmem
    simpa [ModelTrainM.train_single_model, hfs] using this
  have hrgt : (-1 : Rat)
      < (settings.foldl ModelTrainM.selStep ⟨none, -1⟩).score :=
    lt_of_lt_of_le hsc hscle
  rcases ihcases with heq | ⟨i, hi, heq, hlt, hprev⟩
  · rw [heq] at hrgt
    simp at hrgt
  · have hmodel :
        (settings.foldl ModelTrainM.selStep ⟨none, -1⟩).model.isSome := by
      cases hfs2 : (settings.get ⟨i, hi⟩).fitScore with
      | none =>
          have hval : settings.foldl ModelTrainM.selStep ⟨none, -1⟩
              = ⟨none, -1⟩ := by
            rw [heq]
            unfold ModelTrainM.train_single_model
            rw [hfs2]
          rw [hval] at hrgt
          simp at hrgt
      | some sc2 =>
          rw [heq]
          unfold ModelTrainM.train_single_model
          rw [hfs2]
          rfl
    have htall : ModelTrainM.train_all_models settings
        = some (settings.foldl ModelTrainM.selStep ⟨none, -1⟩) := by
      simp [ModelTrainM.train_all_models, hmodel]
    refine ⟨settings.foldl ModelTrainM.selStep ⟨none, -1⟩, htall, ?_, ihall,
      ⟨i, hi, heq, fun j hj => hprev j hj⟩, ?_⟩
    · intro ms hnone
      simp [ModelTrainM.train_single_model, hnone]
    · simp [ModelTrainM.run_trainer, htall]

/-- Witness for C5 at a concrete configuration: the first of the two
tied models wins and is the one persisted. -/
theorem c5_witness :
    ModelTrainM.run_trainer true ModelTrainM.cSettings
      = Except.ok
          (some (⟨some ("m2"), 1/2⟩ : ModelTrainM.TrainResult),
           some ("m2")) := by
  obtain ⟨best, htall, _, _, _, hrun⟩ :=
    c5_best_model_selection ModelTrainM.cSettings
      ⟨⟨"m2", some (1/2)⟩, by simp [ModelTrainM.cSettings], 1/2, rfl,
        by norm_num⟩
  have hcomp : ModelTrainM.train_all_models ModelTrainM.cSettings
      = some (⟨some ("m2"), 1/2⟩ : ModelTrainM.TrainResult) := by
    simp only [ModelTrainM.train_all_models, ModelTrainM.cSettings,
      ModelTrainM.selStep, ModelTrainM.train_single_model, List.foldl]
    norm_num
  rw [hcomp] at htall
  have hbest := Option.some.inj htall
  rw [hrun, ← hbest]

/-- C9: when every configured model's grid-search fit raises,
`train_all_models` returns `None` instead of a dict, and `run_trainer`
(with `save_model` set) then raises `TypeError` subscripting that `None`
— there is no safe fallback on the all-models-failed path. -/
theorem c9_all_models_failed (settings : List ModelTrainM.ModelSetting)
    (h : ∀ ms ∈ settings, ms.fitScore = none) :
    ModelTrainM.train_all_models settings = none ∧
    ModelTrainM.run_trainer true settings = Except.error ("TypeError") := by
  have hfold := ModelTrainM.allFailed_foldl settings h
  have htall : ModelTrainM.train_all_models settings = none := by
    simp [ModelTrainM.train_all_models, hfold]
  exact ⟨htall, by simp [ModelTrainM.run_trainer, htall]⟩

/-- Witness for C9 with two concrete failing models. -/
theorem c9_witness :
    ModelTrainM.run_trainer true [⟨"m1", none⟩, ⟨"m2", none⟩]
      = Except.error ("TypeError") :=
  (c9_all_models_failed [⟨"m1", none⟩, ⟨"m2", none⟩]
    (by intro ms hms; rcases List.mem_cons.mp hms with h | h
        · rw [h]
        · rcases List.mem_cons.mp h with h2 | h2
          · rw [h2]
          · exact absurd h2 (List.not_mem_nil ms))).2

namespace TopicModelling

/-- Python's `range(start, limit, step)` for a non-negative step (the
configured topic ranges always step upwards). -/
def pyRange (start limit step : Nat) : List Nat :=
  if step = 0 then []
  else (List.range ((limit - start + step - 1) / step)).map
    (fun k => start + k * step)

/-- One element of the list built by `get_models_and_coherence`:
`{"topics": i, "model": ..., "coherence": ...}`. -/
structure Entry (M : Type) where
  topics : Nat
  model : M
  coherence : Rat
deriving DecidableEq

/-- Embedding of `GensimTopicModeller.get_models_and_coherence`.  The
external library calls are abstracted: `runLdaF i` is the model
`LdaMulticore` deterministically returns for `i` topics (fixed corpus,
dictionary, passes and seed), and `cohF m` is the c_v coherence
`CoherenceModel(...).get_coherence()` computes for model `m`.  With
`single_model` the range degenerates to `[num_topics]`; otherwise it is
`range(topics["start"], topics["limit"], topics["step"])`. -/
def get_models_and_coherence {M : Type} (runLdaF : Nat → M)
    (cohF : M → Rat) (singleModel : Bool) (numTopics : Nat)
    (tStart tLimit tStep : Nat) : List (Entry M) :=
  let rng := if singleModel then (numTopics, numTopics + 1, 1)
             else (tStart, tLimit, tStep)
  (pyRange rng.1 rng.2.1 rng.2.2).map
    (fun i => ⟨i, runLdaF i, cohF (runLdaF i)⟩)

/-- Embedding of `save_artifacts`' third pickle: the `models_cvs` file
receives the `model_coherence` object passed in — the whole list. -/
def save_artifacts {M : Type} (modelCoherence : List (Entry M)) :
    List (Entry M) :=
  modelCoherence

/-- Embedding of the `run_lda` driver on its `run_model=True` path:
build the models-and-coherence list, persist it with `save_artifacts`,
and return it.  Result: (returned list, persisted `models_cvs`
artifact). -/
def run_lda_driver {M : Type} (runLdaF : Nat → M) (cohF : M → Rat)
    (singleModel : Bool) (numTopics : Nat) (tStart tLimit tStep : Nat) :
    List (Entry M) × List (Entry M) :=
  let mc := get_models_and_coherence runLdaF cohF singleModel numTopics
    tStart tLimit tStep
  (mc, save_artifacts mc)

theorem lt_ceil_div_iff {d st k : Nat} (hst : 0 < st) :
    k < (d + st - 1) / st ↔ k * st < d := by
  have h := Nat.div_le_iff_le_mul_add_pred hst (a := d + st - 1) (c := k)
  have hcomm : st * k = k * st := Nat.mul_comm st k
  constructor
  · intro hk
    by_contra hc
    push_neg at hc
    have h2 : (d + st - 1) / st ≤ k := h.mpr (by omega)
    omega
  · intro hmul
    by_contra hc
    push_neg at hc
    have h2 := h.mp hc
    omega

theorem mem_pyRange {s L st n : Nat} (hst : 0 < st) :
    n ∈ pyRange s L st ↔ ∃ j, n = s + j * st ∧ n < L := by
  unfold pyRange
  rw [if_neg (by omega)]
  simp only [List.mem_map, List.mem_range]
  constructor
  · rintro ⟨k, hk, rfl⟩
    refine ⟨k, rfl, ?_⟩
    have := (lt_ceil_div_iff (d := L - s) hst).mp hk
    omega
  · rintro ⟨j, rfl, hlt⟩
    refine ⟨j, ?_, rfl⟩
    apply (lt_ceil_div_iff (d := L - s) hst).mpr
    omega

end TopicModelling

/-- Helper values for the C2 counterexample: two candidate topic counts
2 and 3, the model for `i` topics abstracted as `i` itself, and
coherence growing with the topic count. -/
def c2Run : List (TopicModelling.Entry Nat) × List (TopicModelling.Entry Nat) :=
  TopicModelling.run_lda_driver (fun i => i) (fun m => (m : Rat)) false 0 2 4 1

/-- C2 counterexample: with `single_model=False` and
`topics = {start: 2, limit: 4, step: 1}`, the driver pickles the whole
two-element candidate list — including the model with coherence 2,
strictly below the best coherence 3 — so it does not persist (only) the
best-scoring model. -/
theorem c2_counterexample :
    c2Run.2 = [⟨2, 2, 2⟩, ⟨3, 3, 3⟩] ∧
    c2Run.2 ≠ [⟨3, 3, 3⟩] := by
  constructor
  · show TopicModelling.save_artifacts _ = _
    unfold c2Run TopicModelling.run_lda_driver
      TopicModelling.get_models_and_coherence TopicModelling.save_artifacts
      TopicModelling.pyRange
    norm_num [List.range_succ]
  · intro h
    have h1 : c2Run.2 = [⟨2, 2, 2⟩, ⟨3, 3, 3⟩] := by
      unfold c2Run TopicModelling.run_lda_driver
        TopicModelling.get_models_and_coherence TopicModelling.save_artifacts
        TopicModelling.pyRange
      norm_num [List.range_succ]
    rw [h1] at h
    exact List.noConfusion (List.cons.inj h).2

/-- C2 (amended): when `single_model` is `False`,
`get_models_and_coherence` trains one LDA model for every candidate
topic count in `range(topics["start"], topics["limit"],
topics["step"])` and pairs each model with its c_v coherence score; the
`run_lda` driver then persists the full list of candidate models with
their scores (not a best-of selection). -/
theorem c2_lda_candidate_sweep {M : Type} (runLdaF : Nat → M)
    (cohF : M → Rat) (numTopics tStart tLimit tStep : Nat)
    (hstep : 0 < tStep) :
    (TopicModelling.get_models_and_coherence runLdaF cohF false numTopics
        tStart tLimit tStep).map (fun e => e.topics)
      = TopicModelling.pyRange tStart tLimit tStep ∧
    (∀ e ∈ TopicModelling.get_models_and_coherence runLdaF cohF false
        numTopics tStart tLimit tStep,
      e.model = runLdaF e.topics ∧ e.coherence = cohF (runLdaF e.topics)) ∧
    (∀ n, n ∈ TopicModelling.pyRange tStart tLimit tStep ↔
      ∃ j, n = tStart + j * tStep ∧ n < tLimit) ∧
    (TopicModelling.run_lda_driver runLdaF cohF false numTopics tStart
        tLimit tStep).2
      = TopicModelling.get_models_and_coherence runLdaF cohF false
          numTopics tStart tLimit tStep := by
  refine ⟨?_, ?_, fun n => TopicModelling.mem_pyRange hstep, rfl⟩
  · unfold TopicModelling.get_models_and_coherence
    rw [List.map_map]
    exact List.map_id (TopicModelling.pyRange tStart tLimit tStep)
  · intro e he
    unfold TopicModelling.get_models_and_coherence at he
    simp only [List.mem_map] at he
    obtain ⟨i, _, rfl⟩ := he
    exact ⟨rfl, rfl⟩

/-- Witness for C2's theorem at the concrete configuration of the
counterexample run. -/
theorem c2_witness :
    (TopicModelling.get_models_and_coherence (fun i => i)
        (fun m => (m : Rat)) false 0 2 4 1).map (fun e => e.topics)
      = TopicModelling.pyRange 2 4 1 ∧
    (3 ∈ TopicModelling.pyRange 2 4 1 ↔ ∃ j, 3 = 2 + j * 1 ∧ 3 < 4) := by
  have h := c2_lda_candidate_sweep (fun i => i) (fun m => (m : Rat))
    0 2 4 1 (by decide)
  exact ⟨h.1, h.2.2.1 3⟩

namespace ArchiveFs

/-- A flat file-system state: each entry is (directory, filename).
File contents are irrelevant to the archiving logic. -/
abbrev FS : Type := List (String × String)

/-- Embedding of `utils.get_all_files_in_dir`: the (non-recursive) list
of files in a directory. -/
def get_all_files_in_dir (d : String) (fs : FS) : List (String × String) :=
  fs.filter (fun p => p.1 = d)

/-- The zip filename chosen by `utils.add_files_to_zip`: the first
archived file's leading timestamp (the first 15 characters —
`len('%Y%m%d-%H%M%S')` rendered) plus `_results.zip`; if the file list
is empty the `IndexError` is caught and the default `results.zip`
kept. -/
def zipName (fileList : List (String × String)) : String :=
  match fileList with
  | [] => "results.zip"
  | f :: _ => (f.2.take 15) ++ "_results.zip"

/-- Embedding of `utils.add_files_to_zip`: create (overwriting if
present) the zip in `targetDir` and record the archived basenames.
Returns the new state and the (zip name, archived basenames) record. -/
def add_files_to_zip (targetDir : String)
    (fileList : List (String × String)) (fs : FS) :
    FS × (String × List String) :=
  let zn := zipName fileList
  (fs.filter (fun p => p ≠ (targetDir, zn)) ++ [(targetDir, zn)],
   (zn, fileList.map (fun p => p.2)))

/-- Embedding of `utils.delete_files_from_dir`: remove each listed file
from the state. -/
def delete_files_from_dir (fileList : List (String × String)) (fs : FS) :
    FS :=
  fs.filter (fun p => p ∉ fileList)

/-- Embedding of `utils.auto_archive_files` with the default
`to_zip=True`: list the files of `dirName`, add them to a zip in
`archiveDir`, then delete the originals. -/
def auto_archive_files (dirName archiveDir : String) (fs : FS) :
    FS × (String × List String) :=
  let fl := get_all_files_in_dir dirName fs
  let z := add_files_to_zip archiveDir fl fs
  (delete_files_from_dir fl z.1, z.2)

/-- The file-system effects of `AuRatesDocIngest.run_processor`:
archive the output directory first, then write the new timestamped CSV
and the input-files text record into it. -/
def run_processor_fs (dirName archiveDir csvName txtName : String)
    (fs : FS) : FS × (String × List String) :=
  let a := auto_archive_files dirName archiveDir fs
  (a.1 ++ [(dirName, csvName), (dirName, txtName)], a.2)

end ArchiveFs

/-- C10: with the archive directory distinct from the output directory,
`run_processor` first runs `auto_archive_files`, which adds every
pre-existing file of the output directory to a zip (named from the first
file's timestamp prefix) in the archive directory and deletes the
originals; files in other directories are preserved, nothing but the
zip is created, and only then are the new CSV and text outputs
written. -/
theorem c10_archive_then_write (fs : ArchiveFs.FS)
    (dirName archiveDir csvName txtName : String)
    (hne : archiveDir ≠ dirName) :
    (∀ p ∈ fs, p.1 = dirName →
      p.2 ∈ (ArchiveFs.auto_archive_files dirName archiveDir fs).2.2 ∧
      p ∉ (ArchiveFs.auto_archive_files dirName archiveDir fs).1) ∧
    (∀ p ∈ fs, p.1 ≠ dirName →
      p ∈ (ArchiveFs.auto_archive_files dirName archiveDir fs).1) ∧
    (archiveDir, (ArchiveFs.auto_archive_files dirName archiveDir fs).2.1)
      ∈ (ArchiveFs.auto_archive_files dirName archiveDir fs).1 ∧
    (∀ p ∈ (ArchiveFs.auto_archive_files dirName archiveDir fs).1,
      p ∈ fs ∨
      p = (archiveDir,
        (ArchiveFs.auto_archive_files dirName archiveDir fs).2.1)) ∧
    (∀ f fl, ArchiveFs.get_all_files_in_dir dirName fs = f :: fl →
      (ArchiveFs.auto_archive_files dirName archiveDir fs).2.1
        = (f.2.take 15) ++ ("_results.zip")) ∧
    ArchiveFs.run_processor_fs dirName archiveDir csvName txtName fs
      = ((ArchiveFs.auto_archive_files dirName archiveDir fs).1
          ++ [(dirName, csvName), (dirName, txtName)],
         (ArchiveFs.auto_archive_files dirName archiveDir fs).2) := by
  refine ⟨?_, ?_, ?_, ?_, ?_, rfl⟩
  · intro p hp hdir
    have hfl : p ∈ ArchiveFs.get_all_files_in_dir dirName fs := by
      unfold ArchiveFs.get_all_files_in_dir
      exact List.mem_filter.mpr ⟨hp, by simp [hdir]⟩
    constructor
    · show p.2 ∈ (ArchiveFs.get_all_files_in_dir dirName fs).map
        (fun p => p.2)
      exact List.mem_map_of_mem _ hfl
    · intro hmem
      have := List.of_mem_filter hmem
      simp only [decide_not, Bool.not_eq_true', decide_eq_false_iff_not]
        at this
      exact this hfl
  · intro p hp hdir
    have hnotfl : p ∉ ArchiveFs.get_all_files_in_dir dirName fs := by
      intro hfl
      have := List.of_mem_filter hfl
      simp only [decide_eq_true_eq] at this
      exact hdir this
    apply List.mem_filter.mpr
    refine ⟨?_, by simpa using hnotfl⟩
    apply List.mem_append.mpr
    by_cases hpz : p = (archiveDir,
        ArchiveFs.zipName (ArchiveFs.get_all_files_in_dir dirName fs))
    · exact Or.inr (by simp [hpz])
    · exact Or.inl (List.mem_filter.mpr ⟨hp, by simpa using hpz⟩)
  · apply List.mem_filter.mpr
    constructor
    · exact List.mem_append.mpr (Or.inr (List.mem_singleton.mpr rfl))
    · have : (archiveDir,
          ArchiveFs.zipName (ArchiveFs.get_all_files_in_dir dirName fs))
          ∉ ArchiveFs.get_all_files_in_dir dirName fs := by
        intro hfl
        have := List.of_mem_filter hfl
        simp only [decide_eq_true_eq] at this
        exact hne this
      simpa using this
  · intro p hp
    have hp1 := List.mem_of_mem_filter hp
    rcases List.mem_append.mp hp1 with h | h
    · exact Or.inl (List.mem_of_mem_filter h)
    · exact Or.inr (by simpa using h)
  · intro f fl hcons
    show ArchiveFs.zipName (ArchiveFs.get_all_files_in_dir dirName fs) = _
    rw [hcons]
    rfl

/-- Witness for C10 at a concrete, three-file state. -/
theorem c10_witness :
    ((("out" : String), ("20211105-133123_au_rates.csv" : String))
        ∉ (ArchiveFs.auto_archive_files "out" "arch"
            [("out", "20211105-133123_au_rates.csv"),
             ("elsewhere", "keep.txt")]).1) ∧
    (("elsewhere" : String), ("keep.txt" : String))
        ∈ (ArchiveFs.auto_archive_files "out" "arch"
            [("out", "20211105-133123_au_rates.csv"),
             ("elsewhere", "keep.txt")]).1 ∧
    (ArchiveFs.auto_archive_files "out" "arch"
        [("out", "20211105-133123_au_rates.csv"),
         ("elsewhere", "keep.txt")]).2.1
      = ("20211105-133123_results.zip") := by
  have h := c10_archive_then_write
    [("out", "20211105-133123_au_rates.csv"), ("elsewhere", "keep.txt")]
    "out" "arch" "new.csv" "info.txt" (by decide)
  refine ⟨?_, ?_, ?_⟩
  · exact (h.1 ("out", "20211105-133123_au_rates.csv") (by simp) rfl).2
  · exact h.2.1 ("elsewhere", "keep.txt") (by simp) (by decide)
  · exact h.2.2.2.2.1 ("out", "20211105-133123_au_rates.csv") []
      (by rfl)

namespace PyStr

/-- A Python `str`, as its list of code points. -/
abbrev Str : Type := List Char

/-- Whether `sep` occurs in `s` starting at index `i`. -/
def isOccAt (sep s : Str) (i : Nat) : Bool :=
  decide ((s.drop i).take sep.length = sep)

/-- All occurrence positions of `sep` in `s`, ascending. -/
def occs (sep s : Str) : List Nat :=
  (List.range (s.length + 1)).filter (isOccAt sep s)

/-- Python `s.split(sep, 1)` for a non-empty separator: split at the
first occurrence, `none` when `sep` is not in `s`. -/
def splitFirstAt (sep s : Str) : Option (Str × Str) :=
  match occs sep s with
  | [] => none
  | i :: _ => some (s.take i, s.drop (i + sep.length))

/-- Python `s.rsplit(sep, 1)` for a non-empty separator: split at the
last occurrence, `none` when `sep` is not in `s`. -/
def splitLastAt (sep s : Str) : Option (Str × Str) :=
  match (occs sep s).getLast? with
  | none => none
  | some i => some (s.take i, s.drop (i + sep.length))

end PyStr

namespace PollWebsite

/-- Module constant `MAX_CLICKS = 1` of `poll_website.py`. -/
def MAXCLICKS : Nat := 1

/-- Module constant `WAIT_TIME = 2` (seconds) of `poll_website.py`. -/
def WAITTIME : Nat := 2

/-- `random.randint(lo, hi)`: a draw from the stream mapped into
`[lo, hi]`. -/
def randint (lo hi : Nat) (draw : Nat) : Nat := lo + draw % (hi + 1 - lo)

/-- `random.choice(xs)`: a draw mapped onto an index of `xs`. -/
def choice {α : Type} (xs : List α) (dflt : α) (draw : Nat) : α :=
  xs.getD (draw % xs.length) dflt

/-- The observable actions of a run: page loads, element clicks and
`time.sleep` pauses (seconds). -/
inductive Ev
  | visit (url : PyStr.Str) : Ev
  | click (elemId : PyStr.Str) : Ev
  | sleep (secs : Nat) : Ev
deriving DecidableEq

/-- One iteration of the click loop in `page_interactions`: dispatch on
the URL suffix, click the chosen element, and sleep `WAIT_TIME`.
Returns the events and whether a random draw was consumed (only the
home-page branch draws, for `random.choice` over the index buttons). -/
def clickOnce (indexIds : List PyStr.Str)
    (graphsId mapsId carouselId : PyStr.Str) (suffix : PyStr.Str)
    (draw : Nat) : List Ev × Bool :=
  if suffix = [] ∨ suffix.headD ' ' = Char.ofNat 63 then
    ([Ev.click (choice indexIds [] draw), Ev.sleep WAITTIME], true)
  else if suffix = ("graphs").data then
    ([Ev.click graphsId, Ev.sleep WAITTIME], false)
  else if suffix = ("maps").data then
    ([Ev.click mapsId, Ev.sleep WAITTIME], false)
  else if suffix = ("carousel").data then
    ([Ev.click carouselId, Ev.sleep WAITTIME], false)
  else if suffix = ("about").data then
    ([Ev.sleep WAITTIME], false)
  else
    ([Ev.sleep WAITTIME], false)

/-- The `for _ in range(num_clicks)` loop of `page_interactions`,
threading the random-stream position. -/
def clickLoop (indexIds : List PyStr.Str)
    (graphsId mapsId carouselId : PyStr.Str) (suffix : PyStr.Str)
    (s : Nat → Nat) : Nat → Nat → List Ev × Nat
  | 0, k => ([], k)
  | n + 1, k =>
      let r := clickOnce indexIds graphsId mapsId carouselId suffix (s k)
      let k' := if r.2 then k + 1 else k
      let rest := clickLoop indexIds graphsId mapsId carouselId suffix s n k'
      (r.1 ++ rest.1, rest.2)

/-- The URL suffix computed by `page_interactions`:
`url.rsplit(sep="/", maxsplit=1)`, second part when a slash is present,
`""` otherwise. -/
def suffixOf (url : PyStr.Str) : PyStr.Str :=
  match PyStr.splitLastAt [Char.ofNat 47] url with
  | some p => p.2
  | none => []

/-- Embedding of `page_interactions`: load the page, derive the suffix
by rsplitting the URL on the last slash, draw
`num_clicks = random.randint(1, MAX_CLICKS)`, and run the click loop. -/
def page_interactions (indexIds : List PyStr.Str)
    (graphsId mapsId carouselId : PyStr.Str) (url : PyStr.Str)
    (s : Nat → Nat) (k : Nat) : List Ev × Nat :=
  (Ev.visit url ::
    (clickLoop indexIds graphsId mapsId carouselId (suffixOf url) s
      (randint 1 MAXCLICKS (s k)) (k + 1)).1,
   (clickLoop indexIds graphsId mapsId carouselId (suffixOf url) s
      (randint 1 MAXCLICKS (s k)) (k + 1)).2)

/-- The recursion of `poll_site` over the request count: pick a random
URL, interact with the page, then sleep `wait_time` twice (around
`driver.quit()`). -/
def pollSiteAux (indexIds : List PyStr.Str)
    (graphsId mapsId carouselId : PyStr.Str) (urls : List PyStr.Str)
    (wait : Nat) (s : Nat → Nat) : Nat → Nat → List Ev
  | 0, _ => []
  | n + 1, k =>
      (page_interactions indexIds graphsId mapsId carouselId
          (choice urls [] (s k)) s (k + 1)).1
        ++ [Ev.sleep wait, Ev.sleep wait]
        ++ pollSiteAux indexIds graphsId mapsId carouselId urls wait s n
            (page_interactions indexIds graphsId mapsId carouselId
              (choice urls [] (s k)) s (k + 1)).2

/-- Embedding of `poll_site(urls, num_requests, wait_time, ...)`,
started at position 0 of the random stream. -/
def poll_site (indexIds : List PyStr.Str)
    (graphsId mapsId carouselId : PyStr.Str) (urls : List PyStr.Str)
    (numRequests wait : Nat) (s : Nat → Nat) : List Ev :=
  pollSiteAux indexIds graphsId mapsId carouselId urls wait s numRequests 0

/-- The sequence of sleep durations of a run. -/
def sleepsOf (evs : List Ev) : List Nat :=
  evs.filterMap (fun e => match e with
    | .sleep n => some n
    | _ => none)

theorem randint_one_one (d : Nat) : randint 1 MAXCLICKS d = 1 := by
  simp [randint, MAXCLICKS, Nat.mod_one]

theorem sleepsOf_append (a b : List Ev) :
    sleepsOf (a ++ b) = sleepsOf a ++ sleepsOf b :=
  List.filterMap_append a b _

theorem sleeps_clickOnce (indexIds : List PyStr.Str)
    (g m c suffix : PyStr.Str) (d : Nat) :
    sleepsOf (clickOnce indexIds g m c suffix d).1 = [WAITTIME] := by
  unfold clickOnce
  split_ifs <;> rfl

theorem sleeps_clickLoop (indexIds : List PyStr.Str)
    (g m c suffix : PyStr.Str) (s : Nat → Nat) (n k : Nat) :
    sleepsOf (clickLoop indexIds g m c suffix s n k).1
      = List.replicate n WAITTIME := by
  induction n generalizing k with
  | zero => rfl
  | succ n ih =>
      show sleepsOf ((clickOnce indexIds g m c suffix (s k)).1 ++ _)
        = _
      rw [sleepsOf_append, sleeps_clickOnce, ih]
      rfl

theorem sleepsOf_visit (u : PyStr.Str) (l : List Ev) :
    sleepsOf (Ev.visit u :: l) = sleepsOf l := rfl

theorem sleeps_page_interactions (indexIds : List PyStr.Str)
    (g m c url : PyStr.Str) (s : Nat → Nat) (k : Nat) :
    sleepsOf (page_interactions indexIds g m c url s k).1
      = [WAITTIME] := by
  simp only [page_interactions, sleepsOf_visit, randint_one_one,
    sleeps_clickLoop]
  rfl

theorem sleeps_pollSiteAux (indexIds : List PyStr.Str)
    (g m c : PyStr.Str) (urls : List PyStr.Str) (wait : Nat)
    (s : Nat → Nat) (n k : Nat) :
    sleepsOf (pollSiteAux indexIds g m c urls wait s n k)
      = (List.replicate n [WAITTIME, wait, wait]).flatten := by
  induction n generalizing k with
  | zero => rfl
  | succ n ih =>
      simp only [pollSiteAux, sleepsOf_append, sleeps_page_interactions,
        ih]
      rfl

end PollWebsite

/-- C7 counterexample: the claim is false — no two runs of `poll_site`
differing only in their random number stream have different sleep
durations, whatever the configured element ids, URL list, wait time and
request count: with `MAX_CLICKS = 1` each request contributes exactly
the sleeps `[WAIT_TIME, wait_time, wait_time]` regardless of the
draws. -/
theorem c7_counterexample :
    ¬ ∃ (indexIds : List PyStr.Str) (g m c : PyStr.Str)
        (urls : List PyStr.Str) (n wait : Nat) (s₁ s₂ : Nat → Nat),
      PollWebsite.sleepsOf
          (PollWebsite.poll_site indexIds g m c urls n wait s₁)
        ≠ PollWebsite.sleepsOf
            (PollWebsite.poll_site indexIds g m c urls n wait s₂) := by
  rintro ⟨indexIds, g, m, c, urls, n, wait, s₁, s₂, hne⟩
  apply hne
  unfold PollWebsite.poll_site
  rw [PollWebsite.sleeps_pollSiteAux, PollWebsite.sleeps_pollSiteAux]

/-- C7 (amended): the traffic generator loads pages and clicks elements
in a loop with pauses, but the pause durations are independent of the
random draws: since `MAX_CLICKS = 1`, `random.randint(1, MAX_CLICKS)`
always returns 1, so every run of `poll_site` sleeps exactly
`WAIT_TIME` once per request inside `page_interactions` and `wait_time`
twice per request in `poll_site` — the random stream only selects the
URL visited and the element clicked. -/
theorem c7_sleeps_deterministic (indexIds : List PyStr.Str)
    (g m c : PyStr.Str) (urls : List PyStr.Str) (n wait : Nat)
    (s : Nat → Nat) :
    (∀ d, PollWebsite.randint 1 PollWebsite.MAXCLICKS d = 1) ∧
    PollWebsite.sleepsOf
        (PollWebsite.poll_site indexIds g m c urls n wait s)
      = (List.replicate n [PollWebsite.WAITTIME, wait, wait]).flatten := by
  exact ⟨PollWebsite.randint_one_one, PollWebsite.sleeps_pollSiteAux
    indexIds g m c urls wait s n 0⟩

namespace AuUses

/-- A pandas Series of strings, as (index, value) rows. -/
abbrev Ser : Type := List (Nat × PyStr.Str)

/-- `"\n"`. -/
def nlChar : Char := Char.ofNat 10

/-- `"-"`. -/
def hyChar : Char := Char.ofNat 45

/-- `chr(8226)`, the bullet character. -/
def bulletChar : Char := Char.ofNat 8226

/-- `ser.str.rsplit(pat, n=1, expand=True)`: per row, the text before /
after the last occurrence of `pat`; rows without an occurrence keep the
whole value in column `number_0` and get NaN (`none`) in `number_1`. -/
def rsplitExpand (pat : PyStr.Str) (ser : Ser) :
    List (Nat × (PyStr.Str × Option PyStr.Str)) :=
  ser.map (fun r => (r.1, match PyStr.splitLastAt pat r.2 with
    | some p => (p.1, some p.2)
    | none => (r.2, none)))

/-- `ser.str.split(pat, n=1, expand=True)`: as above, at the first
occurrence. -/
def splitExpand (pat : PyStr.Str) (ser : Ser) :
    List (Nat × (PyStr.Str × Option PyStr.Str)) :=
  ser.map (fun r => (r.1, match PyStr.splitFirstAt pat r.2 with
    | some p => (p.1, some p.2)
    | none => (r.2, none)))

/-- Whether the expanded frame has a second column: pandas only creates
`number_1` when at least one row actually split. -/
def hasCol1 (cols : List (Nat × (PyStr.Str × Option PyStr.Str))) : Bool :=
  cols.any (fun r => r.2.2.isSome)

/-- Embedding of `AuUsesDocIngest.split_on_last_newline`: rsplit on
`"\n"` and return column `number_1` with NaN rows dropped.  When no row
contains a newline the expanded frame has no `number_1` column and the
unguarded subscript raises `KeyError`. -/
def split_on_last_newline (ser : Ser) : Except String Ser :=
  let cols := rsplitExpand [nlChar] ser
  if hasCol1 cols then
    .ok (cols.filterMap (fun r => r.2.2.map (fun b => (r.1, b))))
  else .error ("KeyError")

/-- Embedding of `AuUsesDocIngest.desc_hyphens_last_line`: rsplit on the
pattern; if column `number_1` exists, return `pattern + number_1` with
NaN rows dropped, otherwise the guard returns an empty Series. -/
def desc_hyphens_last_line (pat : PyStr.Str) (ser : Ser) : Ser :=
  let cols := rsplitExpand pat ser
  if hasCol1 cols then
    cols.filterMap (fun r => r.2.2.map (fun b => (r.1, pat ++ b)))
  else []

/-- `AuUsesDocIngest.replace_trailing_text` on a single cell: remove the
pattern once if the cell ends with it. -/
def stripSuffixOnce (pat s : PyStr.Str) : PyStr.Str :=
  if pat.isSuffixOf s then s.take (s.length - pat.length) else s

/-- Embedding of `AuUsesDocIngest.desc_bullets`: split on the first
occurrence of the (bullet) pattern, strip a trailing `"\n "` then
`"\n"` from `number_0`, take the last line of `number_0` via
`split_on_last_newline` (which raises `KeyError` when no row has a
newline), and rebuild `first_line + pattern + number_1`, dropping NaN
rows; the unguarded `number_1` subscript raises `KeyError` when no row
contained the pattern. -/
def desc_bullets (pat : PyStr.Str) (ser : Ser) : Except String Ser :=
  let cols0 := splitExpand pat ser
  let cols1 := cols0.map (fun r =>
    (r.1, (stripSuffixOnce [nlChar, ' '] r.2.1, r.2.2)))
  let cols := cols1.map (fun r =>
    (r.1, (stripSuffixOnce [nlChar] r.2.1, r.2.2)))
  do
    let firstLine ← split_on_last_newline
      (cols.map (fun r => (r.1, r.2.1)))
    if hasCol1 cols then
      .ok (cols.filterMap (fun r =>
        match firstLine.find? (fun q => q.1 = r.1), r.2.2 with
        | some q, some b => some (r.1, q.2 ++ pat ++ b)
        | _, _ => none))
    else .error ("KeyError")

/-- `df_cut[~df_cut.index.isin(sub.index)]`. -/
def removeIdxs (sub ser : Ser) : Ser :=
  ser.filter (fun r => ¬ sub.any (fun q => q.1 = r.1))

/-- Insertion step of `sort_index`. -/
def insertByIdx (r : Nat × PyStr.Str) : Ser → Ser
  | [] => [r]
  | q :: rest =>
      if r.1 ≤ q.1 then r :: q :: rest else q :: insertByIdx r rest

/-- `Series.sort_index()` (stable insertion sort on the index). -/
def sortByIdx (ser : Ser) : Ser := ser.foldr insertByIdx []

/-- Embedding of `AuUsesDocIngest.extract_commodity_description`: apply
each positional heuristic in source order — single-hyphen cells, last
`"\n--"` line, last `"\n- -"` line, first `"\n-"` bullet, first
`"\n•"` bullet, last newline, whole-cell fallback — removing each
heuristic's matched rows before the next, then append all pieces and
sort by index. -/
def extract_commodity_description (desc : Ser) : Except String Ser := do
  let singleHyphen := desc.filter (fun r => r.2 = [hyChar])
  let cut1 := removeIdxs singleHyphen desc
  let h1 := desc_hyphens_last_line [nlChar, hyChar, hyChar] cut1
  let cut2 := removeIdxs h1 cut1
  let h2 := desc_hyphens_last_line [nlChar, hyChar, ' ', hyChar] cut2
  let cut3 := removeIdxs h2 cut2
  let b1 ← desc_bullets [nlChar, hyChar] cut3
  let cut4 := removeIdxs b1 cut3
  let b2 ← desc_bullets [nlChar, bulletChar] cut4
  let cut5 := removeIdxs b2 cut4
  let ll ← split_on_last_newline cut5
  let cut6 := removeIdxs ll cut5
  .ok (sortByIdx (singleHyphen ++ h1 ++ h2 ++ b1 ++ b2 ++ ll ++ cut6))

end AuUses

/-- C1: evaluating `extract_commodity_description` at a one-row frame
whose description is the single line `"hello"` — no hyphens, bullets or
newlines — raises `KeyError` instead of returning the per-row
description Series the function's own docstring promises ("This Series
should be the same length as df"): `desc_bullets` reaches
`split_on_last_newline`, where no row of `number_0` contains a newline,
so the expanded frame has no `number_1` column and the unguarded
subscript fails (the guard present in `desc_hyphens_last_line` is
missing there). -/
theorem c1_keyerror_on_patternless_frame :
    AuUses.extract_commodity_description [(0, ("hello").data)]
      = Except.error ("KeyError") := by
  rfl
